import Mathlib

/-
Verification of the stake-request reconciliation core of the facilitator
repository.  The embedded code is StakeRequestHandler.persist
(src/src/handlers/StakeRequestHandler.ts) together with the checksum helper
Utils.toChecksumAddress (src/src/common/Utils.ts).  External collaborators
(the BigNumber arbitrary-precision parser, the Web3Utils checksum routine,
the StakeRequest model class and the StakeRequestRepository record store)
are not under src/; they are modelled from the specification at their
interface boundary, as flagged in the doc comments below.
-/

namespace Facilitator

/-- Raw input event shape produced by the event-ingestion layer: the
numeric fields arrive as decimal numeric strings and the address fields as
hex address strings of any case. -/
structure RawStakeRequestEvent where
  stakeRequestHash : String
  amount : String
  beneficiary : String
  gasPrice : String
  gasLimit : String
  nonce : String
  gateway : String
  staker : String
  stakerProxy : String
  blockNumber : String
deriving Repr, DecidableEq

/-- Modelled from the spec: the StakeRequest model class is not under src/.
Fields follow the data model: five arbitrary-precision non-negative
integers, four checksummed address strings, an optional messageHash, and a
blockNumber that is optional in the stored model (the handler dereferences
it with a non-null assertion at line 68). -/
structure StakeRequest where
  stakeRequestHash : String
  amount : Nat
  beneficiary : String
  gasPrice : Nat
  gasLimit : Nat
  nonce : Nat
  gateway : String
  staker : String
  stakerProxy : String
  blockNumber : Option Nat
  messageHash : Option String
deriving Repr, DecidableEq

/-- Modelled from the spec: arbitrary-precision numeric parsing of a
decimal numeric string (the BigNumber library is an external collaborator).
Succeeds exactly on nonempty all-digit strings; malformed input fails. -/
def parseDecimal (s : String) : Option Nat :=
  if s.data ≠ [] ∧ s.data.all Char.isDigit then
    some (s.data.foldl (fun n c => 10 * n + (c.toNat - 48)) 0)
  else none

def isHexDigitChar (c : Char) : Bool :=
  c.isDigit || ('a' ≤ c && c ≤ 'f') || ('A' ≤ c && c ≤ 'F')

def toLowerHexChar (c : Char) : Char :=
  if 'A' ≤ c ∧ c ≤ 'F' then Char.ofNat (c.toNat + 32) else c

/-- Utils.toChecksumAddress delegates to the external
Web3Utils.toChecksumAddress.  Modelled from the spec: it validates a
fixed-length hex address string of any case and returns it case-normalized;
the exact mixed-case checksum encoding depends on a hash routine external
to this repository, so the canonical case normalization is modelled as
lowercasing the forty hex digits.  Invalid addresses fail. -/
def toChecksumAddress (address : String) : Option String :=
  if address.data.length = 42 ∧ address.data.take 2 = ['0', 'x']
      ∧ (address.data.drop 2).all isHexDigitChar then
    some (String.mk ('0' :: 'x' :: (address.data.drop 2).map toLowerHexChar))
  else none

/-- The normalized per-event fields computed at lines 56 to 65 of
StakeRequestHandler.persist. -/
structure ParsedEvent where
  stakeRequestHash : String
  amount : Nat
  beneficiary : String
  gasPrice : Nat
  gasLimit : Nat
  nonce : Nat
  gateway : String
  staker : String
  stakerProxy : String
  blockNumber : Nat
deriving Repr, DecidableEq

/-- Field normalization of one event, in source order (lines 56 to 65):
checksum the four address fields and parse the five numeric fields; any
failure rejects the event. -/
def parseEvent (t : RawStakeRequestEvent) : Option ParsedEvent :=
  (parseDecimal t.amount).bind fun amount =>
  (toChecksumAddress t.beneficiary).bind fun beneficiary =>
  (parseDecimal t.gasPrice).bind fun gasPrice =>
  (parseDecimal t.gasLimit).bind fun gasLimit =>
  (parseDecimal t.nonce).bind fun nonce =>
  (toChecksumAddress t.gateway).bind fun gateway =>
  (toChecksumAddress t.staker).bind fun staker =>
  (toChecksumAddress t.stakerProxy).bind fun stakerProxy =>
  (parseDecimal t.blockNumber).map fun blockNumber =>
  { stakeRequestHash := t.stakeRequestHash, amount, beneficiary, gasPrice,
    gasLimit, nonce, gateway, staker, stakerProxy, blockNumber }

/-- The comparison blockNumber.gt(stakeRequest.blockNumber!) at line 68.
The non-null assertion has no runtime effect; a BigNumber comparison
against an absent operand yields false. -/
def bnGt (b : Nat) : Option Nat → Bool
  | some stored => decide (stored < b)
  | none => false

/-- Modelled from the spec: the StakeRequestRepository record store is not
under src/.  Its contents are an association list keyed by the request
hash, with injectable read and write failures so that failure propagation
is observable. -/
structure StoreModel where
  recs : List (String × StakeRequest)
  getFails : String → Bool
  saveFails : String → Bool

/-- Point lookup by primary key, the get side of the record store
contract. -/
def lookupRec : List (String × StakeRequest) → String → Option StakeRequest
  | [], _ => none
  | (k, r) :: rest, h => if k = h then some r else lookupRec rest h

/-- Upsert by primary key, the save side of the record store contract. -/
def upsert : List (String × StakeRequest) → StakeRequest → List (String × StakeRequest)
  | [], m => [(m.stakeRequestHash, m)]
  | (k, r) :: rest, m =>
      if k = m.stakeRequestHash then (k, m) :: rest
      else (k, r) :: upsert rest m

inductive PersistError where
  | parseError
  | storeError
deriving Repr, DecidableEq

/-- The record built by the else branch (lines 74 to 85): a brand-new
StakeRequest from the freshly parsed fields; the constructor leaves
messageHash absent. -/
def newRecord (p : ParsedEvent) : StakeRequest :=
  { stakeRequestHash := p.stakeRequestHash, amount := p.amount,
    beneficiary := p.beneficiary, gasPrice := p.gasPrice,
    gasLimit := p.gasLimit, nonce := p.nonce, gateway := p.gateway,
    staker := p.staker, stakerProxy := p.stakerProxy,
    blockNumber := some p.blockNumber, messageHash := none }

/-- The decision step of persist (lines 67 to 86): read the stored record;
if one exists and the parsed blockNumber is strictly greater than the
stored one, mutate it (new blockNumber, messageHash cleared); otherwise
return a brand-new record from the parsed fields. -/
def resolveParsed (recs : List (String × StakeRequest)) (p : ParsedEvent) : StakeRequest :=
  match lookupRec recs p.stakeRequestHash with
  | some stakeRequest =>
      if bnGt p.blockNumber stakeRequest.blockNumber then
        { stakeRequest with blockNumber := some p.blockNumber, messageHash := none }
      else newRecord p
  | none => newRecord p

/-- The per-event closure of persist: normalize the fields, read the
existing record, apply the merge policy.  A parse failure or a failing
read rejects the event. -/
def resolveEvent (st : StoreModel) (t : RawStakeRequestEvent) : Except PersistError StakeRequest :=
  match parseEvent t with
  | none => .error .parseError
  | some p =>
      if st.getFails t.stakeRequestHash then .error .storeError
      else .ok (resolveParsed st.recs p)

/-- Promise.all over the mapped per-event closures (lines 54 to 88): every
event is resolved against the pre-batch store; any rejection rejects the
whole phase. -/
def resolveAll (st : StoreModel) : List RawStakeRequestEvent → Except PersistError (List StakeRequest)
  | [] => .ok []
  | t :: ts =>
      match resolveEvent st t, resolveAll st ts with
      | .ok m, .ok ms => .ok (m :: ms)
      | .error err, _ => .error err
      | .ok _, .error err => .error err

/-- The save loop (lines 90 to 95): one save per resolved model, issued for
every model (no transaction); a failing save does not commit its record but
does not stop the other saves. -/
def commitSaves (fails : String → Bool) :
    List (String × StakeRequest) → List StakeRequest → List (String × StakeRequest)
  | recs, [] => recs
  | recs, m :: ms =>
      commitSaves fails (if fails m.stakeRequestHash then recs else upsert recs m) ms

/-- StakeRequestHandler.persist (lines 52 to 99): resolve every event
against the pre-batch store, then save every resolved model and return the
models.  The result carries the returned value, the list of save calls
issued in order, and the store contents after the call. -/
def persist (st : StoreModel) (transactions : List RawStakeRequestEvent) :
    Except PersistError (List StakeRequest) × List StakeRequest × List (String × StakeRequest) :=
  match resolveAll st transactions with
  | .error err => (.error err, [], st.recs)
  | .ok models =>
      (if models.any (fun m => st.saveFails m.stakeRequestHash) then .error .storeError
       else .ok models,
       models,
       commitSaves st.saveFails st.recs models)

/-- The decision step with the non-null assertion of line 68 made explicit:
dereferencing an absent stored blockNumber is the undefined branch. -/
def resolveParsedChecked (recs : List (String × StakeRequest)) (p : ParsedEvent) :
    Option StakeRequest :=
  match lookupRec recs p.stakeRequestHash with
  | some stakeRequest =>
      match stakeRequest.blockNumber with
      | some b =>
          some (if b < p.blockNumber then
                  { stakeRequest with blockNumber := some p.blockNumber, messageHash := none }
                else newRecord p)
      | none => none
  | none => some (newRecord p)

/-! Helper lemmas. -/

theorem parseEvent_hash (t : RawStakeRequestEvent) (p : ParsedEvent)
    (h : parseEvent t = some p) : p.stakeRequestHash = t.stakeRequestHash := by
  unfold parseEvent at h
  simp only [Option.bind_eq_some, Option.map_eq_some'] at h
  obtain ⟨a, -, b, -, c, -, d, -, e, -, f, -, g, -, i, -, j, -, hp⟩ := h
  rw [← hp]

theorem resolveAll_ok (st : StoreModel) (ts : List RawStakeRequestEvent)
    (ms : List StakeRequest) (h : resolveAll st ts = .ok ms) :
    ms.length = ts.length ∧
      ∀ i (hi : i < ts.length) (hm : i < ms.length),
        resolveEvent st (ts.get ⟨i, hi⟩) = .ok (ms.get ⟨i, hm⟩) := by
  induction ts generalizing ms with
  | nil =>
      simp only [resolveAll] at h
      cases h
      exact ⟨rfl, fun i hi => absurd hi (Nat.not_lt_zero i)⟩
  | cons t ts ih =>
      simp only [resolveAll] at h
      cases he : resolveEvent st t with
      | error err => rw [he] at h; cases h
      | ok m =>
          cases hr : resolveAll st ts with
          | error err => rw [he, hr] at h; cases h
          | ok ms2 =>
              rw [he, hr] at h
              cases h
              obtain ⟨hlen, hget⟩ := ih ms2 hr
              refine ⟨by simp [hlen], ?_⟩
              intro i hi hm
              cases i with
              | zero => simpa using he
              | succ n =>
                  exact hget n (Nat.lt_of_succ_lt_succ hi) (Nat.lt_of_succ_lt_succ hm)

theorem resolveAll_error_of_mem (st : StoreModel) (ts : List RawStakeRequestEvent)
    (t : RawStakeRequestEvent) (err : PersistError) (ht : t ∈ ts)
    (he : resolveEvent st t = .error err) :
    ∃ err2, resolveAll st ts = .error err2 := by
  induction ts with
  | nil => cases ht
  | cons u ts ih =>
      rcases List.mem_cons.mp ht with h1 | h2
      · subst h1
        refine ⟨err, ?_⟩
        simp only [resolveAll, he]
      · obtain ⟨err2, herr2⟩ := ih h2
        simp only [resolveAll, herr2]
        cases resolveEvent st u <;> exact ⟨_, rfl⟩

theorem lookupRec_upsert_self (recs : List (String × StakeRequest)) (m : StakeRequest) :
    lookupRec (upsert recs m) m.stakeRequestHash = some m := by
  induction recs with
  | nil => simp [upsert, lookupRec]
  | cons kr rest ih =>
      obtain ⟨k, r⟩ := kr
      by_cases hk : k = m.stakeRequestHash
      · simp [upsert, hk, lookupRec]
      · simp [upsert, hk, lookupRec, ih]

theorem upsert_upsert (recs : List (String × StakeRequest)) (m : StakeRequest) :
    upsert (upsert recs m) m = upsert recs m := by
  induction recs with
  | nil => simp [upsert]
  | cons kr rest ih =>
      obtain ⟨k, r⟩ := kr
      by_cases hk : k = m.stakeRequestHash
      · simp [upsert, hk]
      · simp [upsert, hk, ih]

theorem commitSaves_no_fail (fails : String → Bool)
    (ms : List StakeRequest) (recs : List (String × StakeRequest))
    (h : ∀ m ∈ ms, fails m.stakeRequestHash = false) :
    commitSaves fails recs ms = ms.foldl (fun acc m => upsert acc m) recs := by
  induction ms generalizing recs with
  | nil => simp [commitSaves]
  | cons m ms ih =>
      have hm : fails m.stakeRequestHash = false := h m (List.mem_cons_self m ms)
      simp only [commitSaves, hm, Bool.false_eq_true, if_false, List.foldl_cons]
      exact ih _ (fun x hx => h x (List.mem_cons_of_mem m hx))

theorem resolveEvent_eq (st : StoreModel) (t : RawStakeRequestEvent) (p : ParsedEvent)
    (hp : parseEvent t = some p) (hget : st.getFails t.stakeRequestHash = false) :
    resolveEvent st t = .ok (resolveParsed st.recs p) := by
  simp [resolveEvent, hp, hget]

theorem persist_single_eq (st : StoreModel) (t : RawStakeRequestEvent) (m : StakeRequest)
    (h : resolveEvent st t = .ok m) (hs : st.saveFails m.stakeRequestHash = false) :
    persist st [t] = (.ok [m], [m], upsert st.recs m) := by
  simp [persist, resolveAll, h, hs, commitSaves]

/-! Claim theorems. -/

/-- C1: for an event whose requestHash has a stored record with blockNumber
b and whose parsed blockNumber is strictly greater, persist resolves and
saves the stored record with blockNumber set to the new value and
messageHash cleared, every other field keeping the previously stored value
rather than the newly parsed one. -/
theorem persist_higher_block_frames_stored_record
    (st : StoreModel) (t : RawStakeRequestEvent) (p : ParsedEvent)
    (r : StakeRequest) (b : Nat)
    (hp : parseEvent t = some p)
    (hget : st.getFails t.stakeRequestHash = false)
    (hsave : st.saveFails t.stakeRequestHash = false)
    (hkey : r.stakeRequestHash = t.stakeRequestHash)
    (hr : lookupRec st.recs t.stakeRequestHash = some r)
    (hb : r.blockNumber = some b)
    (hgt : b < p.blockNumber) :
    resolveEvent st t =
      .ok { r with blockNumber := some p.blockNumber, messageHash := none } ∧
    lookupRec (persist st [t]).2.2 t.stakeRequestHash =
      some { r with blockNumber := some p.blockNumber, messageHash := none } := by
  have hhash := parseEvent_hash t p hp
  have hres : resolveEvent st t =
      .ok { r with blockNumber := some p.blockNumber, messageHash := none } := by
    rw [resolveEvent_eq st t p hp hget]
    simp [resolveParsed, hhash, hr, hb, bnGt, hgt]
  refine ⟨hres, ?_⟩
  have hsave2 : st.saveFails
      ({ r with blockNumber := some p.blockNumber, messageHash := none }).stakeRequestHash
      = false := by simpa [hkey] using hsave
  rw [persist_single_eq st t _ hres hsave2]
  have hk2 : t.stakeRequestHash =
      ({ r with blockNumber := some p.blockNumber, messageHash := none }).stakeRequestHash := by
    simp [hkey]
  rw [hk2]
  exact lookupRec_upsert_self _ _

/-- C2: for an event with no stored record, or a stored record whose
blockNumber is at least the parsed blockNumber, persist resolves and saves
a brand-new record built entirely from the event's normalized fields with
messageHash absent, replacing any previously stored record. -/
theorem persist_replaces_wholesale
    (st : StoreModel) (t : RawStakeRequestEvent) (p : ParsedEvent)
    (hp : parseEvent t = some p)
    (hget : st.getFails t.stakeRequestHash = false)
    (hsave : st.saveFails t.stakeRequestHash = false)
    (hcase : lookupRec st.recs t.stakeRequestHash = none ∨
      ∃ r b, lookupRec st.recs t.stakeRequestHash = some r ∧
        r.blockNumber = some b ∧ p.blockNumber ≤ b) :
    resolveEvent st t = .ok
      { stakeRequestHash := t.stakeRequestHash, amount := p.amount,
        beneficiary := p.beneficiary, gasPrice := p.gasPrice,
        gasLimit := p.gasLimit, nonce := p.nonce, gateway := p.gateway,
        staker := p.staker, stakerProxy := p.stakerProxy,
        blockNumber := some p.blockNumber, messageHash := none } ∧
    lookupRec (persist st [t]).2.2 t.stakeRequestHash = some
      { stakeRequestHash := t.stakeRequestHash, amount := p.amount,
        beneficiary := p.beneficiary, gasPrice := p.gasPrice,
        gasLimit := p.gasLimit, nonce := p.nonce, gateway := p.gateway,
        staker := p.staker, stakerProxy := p.stakerProxy,
        blockNumber := some p.blockNumber, messageHash := none } := by
  have hhash := parseEvent_hash t p hp
  have hnew : newRecord p =
      { stakeRequestHash := t.stakeRequestHash, amount := p.amount,
        beneficiary := p.beneficiary, gasPrice := p.gasPrice,
        gasLimit := p.gasLimit, nonce := p.nonce, gateway := p.gateway,
        staker := p.staker, stakerProxy := p.stakerProxy,
        blockNumber := some p.blockNumber, messageHash := none } := by
    simp [newRecord, hhash]
  have hres : resolveEvent st t = .ok (newRecord p) := by
    rw [resolveEvent_eq st t p hp hget]
    rcases hcase with hnone | ⟨r, b, hsome, hb, hle⟩
    · simp [resolveParsed, hhash, hnone]
    · simp [resolveParsed, hhash, hsome, hb, bnGt, Nat.not_lt.mpr hle]
  refine ⟨by rw [hres, hnew], ?_⟩
  have hsave2 : st.saveFails (newRecord p).stakeRequestHash = false := by
    simpa [newRecord, hhash] using hsave
  rw [persist_single_eq st t _ hres hsave2]
  have hk2 : t.stakeRequestHash = (newRecord p).stakeRequestHash := by
    simp [newRecord, hhash]
  rw [hk2, lookupRec_upsert_self, hnew]

/-- C3: a malformed numeric or address field in any event of the batch
makes persist reject, with no save call issued and the store contents
unchanged. -/
theorem persist_malformed_aborts_batch
    (st : StoreModel) (ts : List RawStakeRequestEvent) (t : RawStakeRequestEvent)
    (ht : t ∈ ts) (hbad : parseEvent t = none) :
    (∃ err, (persist st ts).1 = .error err) ∧
    (persist st ts).2.1 = [] ∧ (persist st ts).2.2 = st.recs := by
  have he : resolveEvent st t = .error .parseError := by
    simp [resolveEvent, hbad]
  obtain ⟨err2, h2⟩ := resolveAll_error_of_mem st ts t _ ht he
  refine ⟨⟨err2, ?_⟩, ?_, ?_⟩ <;> simp [persist, h2]

/-- C4: every record that the per-event resolution produces has messageHash
absent, in both decision branches. -/
theorem resolve_messageHash_absent
    (st : StoreModel) (t : RawStakeRequestEvent) (m : StakeRequest)
    (h : resolveEvent st t = .ok m) : m.messageHash = none := by
  unfold resolveEvent at h
  cases hp : parseEvent t with
  | none => rw [hp] at h; cases h
  | some p =>
      rw [hp] at h
      by_cases hg : st.getFails t.stakeRequestHash = true
      · simp [hg] at h
      · simp only [hg, if_false] at h
        cases h
        unfold resolveParsed
        cases lookupRec st.recs p.stakeRequestHash with
        | none => rfl
        | some sr =>
            by_cases hgt : bnGt p.blockNumber sr.blockNumber = true
            · simp [hgt]
            · simp [hgt, newRecord]

/-- C5: when persist succeeds it returns exactly one record per input
event, and the record at each index is the one resolved from the event at
the same index. -/
theorem persist_one_output_per_input
    (st : StoreModel) (ts : List RawStakeRequestEvent) (ms : List StakeRequest)
    (h : (persist st ts).1 = .ok ms) :
    ms.length = ts.length ∧
      ∀ i (hi : i < ts.length) (hm : i < ms.length),
        resolveEvent st (ts.get ⟨i, hi⟩) = .ok (ms.get ⟨i, hm⟩) := by
  cases hr : resolveAll st ts with
  | error err =>
      have hcontra : (persist st ts).1 = .error err := by simp [persist, hr]
      rw [hcontra] at h
      cases h
  | ok models =>
      by_cases ha : models.any (fun m => st.saveFails m.stakeRequestHash) = true
      · have hcontra : (persist st ts).1 = .error .storeError := by simp [persist, hr, ha]
        rw [hcontra] at h
        cases h
      · have hok : (persist st ts).1 = .ok models := by simp [persist, hr, ha]
        rw [hok] at h
        injection h with h2
        subst h2
        exact resolveAll_ok st ts models hr

/-- C6: calling persist twice with the same single event whose blockNumber
does not exceed the stored blockNumber stores the same record both times
and leaves the store in the same state. -/
theorem persist_idempotent_non_advancing
    (st : StoreModel) (t : RawStakeRequestEvent) (p : ParsedEvent)
    (r : StakeRequest) (b : Nat)
    (hp : parseEvent t = some p)
    (hget : st.getFails t.stakeRequestHash = false)
    (hsave : st.saveFails t.stakeRequestHash = false)
    (hr : lookupRec st.recs t.stakeRequestHash = some r)
    (hb : r.blockNumber = some b)
    (hle : p.blockNumber ≤ b) :
    persist st [t] = (.ok [newRecord p], [newRecord p], upsert st.recs (newRecord p)) ∧
    persist { st with recs := (persist st [t]).2.2 } [t] = persist st [t] := by
  have hhash := parseEvent_hash t p hp
  have hres : resolveEvent st t = .ok (newRecord p) := by
    rw [resolveEvent_eq st t p hp hget]
    simp [resolveParsed, hhash, hr, hb, bnGt, Nat.not_lt.mpr hle]
  have hsave2 : st.saveFails (newRecord p).stakeRequestHash = false := by
    simpa [newRecord, hhash] using hsave
  have h1 : persist st [t] = (.ok [newRecord p], [newRecord p], upsert st.recs (newRecord p)) :=
    persist_single_eq st t _ hres hsave2
  refine ⟨h1, ?_⟩
  rw [h1]
  have hlook : lookupRec (upsert st.recs (newRecord p)) t.stakeRequestHash = some (newRecord p) := by
    rw [show t.stakeRequestHash = (newRecord p).stakeRequestHash by simp [newRecord, hhash]]
    exact lookupRec_upsert_self _ _
  have hres2 : resolveEvent { st with recs := upsert st.recs (newRecord p) } t
      = .ok (newRecord p) := by
    rw [resolveEvent_eq { st with recs := upsert st.recs (newRecord p) } t p hp hget]
    unfold resolveParsed
    rw [hhash, hlook]
    simp [newRecord, bnGt]
  have h2 := persist_single_eq { st with recs := upsert st.recs (newRecord p) } t _ hres2 hsave2
  rw [h2]
  simp [upsert_upsert]

/-- C7: persist passes every resolved record to save exactly once, in
order, and when no save fails the store it returns reflects every one of
those saves. -/
theorem persist_saves_each_resolved_record_once
    (st : StoreModel) (ts : List RawStakeRequestEvent) (ms : List StakeRequest)
    (h : resolveAll st ts = .ok ms) :
    (persist st ts).2.1 = ms ∧
      ((∀ m ∈ ms, st.saveFails m.stakeRequestHash = false) →
        (persist st ts).2.2 = ms.foldl (fun acc m => upsert acc m) st.recs) := by
  unfold persist
  rw [h]
  exact ⟨rfl, fun hnf => commitSaves_no_fail _ ms st.recs hnf⟩

/-- C8: a failing record-store read on any event that parses, or a failing
save on any resolved record, makes the persist call reject. -/
theorem persist_store_failures_propagate
    (st : StoreModel) (ts : List RawStakeRequestEvent)
    (h : (∃ t ∈ ts, (parseEvent t).isSome ∧ st.getFails t.stakeRequestHash = true) ∨
         (∃ ms, resolveAll st ts = .ok ms ∧
            ∃ m ∈ ms, st.saveFails m.stakeRequestHash = true)) :
    ∃ err, (persist st ts).1 = .error err := by
  rcases h with ⟨t, ht, hps, hg⟩ | ⟨ms, hms, m, hm, hs⟩
  · obtain ⟨p, hp⟩ := Option.isSome_iff_exists.mp hps
    have he : resolveEvent st t = .error .storeError := by
      simp [resolveEvent, hp, hg]
    obtain ⟨err2, h2⟩ := resolveAll_error_of_mem st ts t _ ht he
    exact ⟨err2, by simp [persist, h2]⟩
  · have hany : ms.any (fun m => st.saveFails m.stakeRequestHash) = true :=
      List.any_eq_true.mpr ⟨m, hm, hs⟩
    exact ⟨.storeError, by simp [persist, hms, hany]⟩

/-- C9: on the empty batch persist succeeds with the empty sequence, issues
no save call, and leaves the store contents unchanged. -/
theorem persist_empty_batch (st : StoreModel) :
    persist st [] = (.ok [], [], st.recs) := rfl

/-- C10: when every record the store returns for the event's hash has a
present blockNumber, the decision step with the non-null assertion made
explicit never reaches the undefined branch and agrees with the runtime
decision step. -/
theorem resolve_assertion_safe
    (recs : List (String × StakeRequest)) (p : ParsedEvent)
    (h : ∀ r, lookupRec recs p.stakeRequestHash = some r → (r.blockNumber).isSome = true) :
    resolveParsedChecked recs p = some (resolveParsed recs p) := by
  unfold resolveParsedChecked resolveParsed
  cases hl : lookupRec recs p.stakeRequestHash with
  | none => rfl
  | some sr =>
      have hs := h sr hl
      cases hb : sr.blockNumber with
      | none => rw [hb] at hs; cases hs
      | some b => simp [bnGt, hb]

/-! Concrete sample data for the witnesses. -/

def addrA : String := "0xaaaaaaaaaaaaaaaaaaaaaaaaaaaaaaaaaaaaaaaa"

def addrB : String := "0xbbbbbbbbbbbbbbbbbbbbbbbbbbbbbbbbbbbbbbbb"

def addrC : String := "0xcccccccccccccccccccccccccccccccccccccccc"

def addrD : String := "0xdddddddddddddddddddddddddddddddddddddddd"

def sampleEvent : RawStakeRequestEvent :=
  { stakeRequestHash := "0xhash1", amount := "10", beneficiary := addrA,
    gasPrice := "2", gasLimit := "3", nonce := "4", gateway := addrB,
    staker := addrC, stakerProxy := addrD, blockNumber := "100" }

def sampleParsed : ParsedEvent :=
  { stakeRequestHash := "0xhash1", amount := 10, beneficiary := addrA,
    gasPrice := 2, gasLimit := 3, nonce := 4, gateway := addrB,
    staker := addrC, stakerProxy := addrD, blockNumber := 100 }

def storedRecord : StakeRequest :=
  { stakeRequestHash := "0xhash1", amount := 7, beneficiary := addrB,
    gasPrice := 8, gasLimit := 9, nonce := 1, gateway := addrA,
    staker := addrD, stakerProxy := addrC, blockNumber := some 50,
    messageHash := some "0xmm" }

def noFail : String → Bool := fun _ => false

def sampleStore : StoreModel :=
  { recs := [("0xhash1", storedRecord)], getFails := noFail, saveFails := noFail }

def emptyStore : StoreModel :=
  { recs := [], getFails := noFail, saveFails := noFail }

def lowEvent : RawStakeRequestEvent := { sampleEvent with blockNumber := "40" }

def lowParsed : ParsedEvent := { sampleParsed with blockNumber := 40 }

def badEvent : RawStakeRequestEvent := { sampleEvent with amount := "ten" }

def getFailStore : StoreModel :=
  { recs := [], getFails := fun _ => true, saveFails := noFail }

/-! Witnesses. -/

/-- Witness for C1 at a stored record with blockNumber 50 and an event at
blockNumber 100. -/
theorem persist_higher_block_frames_stored_record_witness :
    50 < sampleParsed.blockNumber ∧
    (resolveEvent sampleStore sampleEvent =
        .ok { storedRecord with
              blockNumber := some sampleParsed.blockNumber,
              messageHash := none } ∧
      lookupRec (persist sampleStore [sampleEvent]).2.2 sampleEvent.stakeRequestHash =
        some { storedRecord with
               blockNumber := some sampleParsed.blockNumber,
               messageHash := none }) :=
  ⟨by decide,
   persist_higher_block_frames_stored_record sampleStore sampleEvent sampleParsed
     storedRecord 50 (by decide) rfl rfl rfl (by decide) rfl (by decide)⟩

/-- Witness for C2 at the empty store. -/
theorem persist_replaces_wholesale_witness :
    lookupRec emptyStore.recs sampleEvent.stakeRequestHash = none ∧
    (resolveEvent emptyStore sampleEvent = .ok
        { stakeRequestHash := sampleEvent.stakeRequestHash, amount := sampleParsed.amount,
          beneficiary := sampleParsed.beneficiary, gasPrice := sampleParsed.gasPrice,
          gasLimit := sampleParsed.gasLimit, nonce := sampleParsed.nonce,
          gateway := sampleParsed.gateway, staker := sampleParsed.staker,
          stakerProxy := sampleParsed.stakerProxy,
          blockNumber := some sampleParsed.blockNumber, messageHash := none } ∧
      lookupRec (persist emptyStore [sampleEvent]).2.2 sampleEvent.stakeRequestHash = some
        { stakeRequestHash := sampleEvent.stakeRequestHash, amount := sampleParsed.amount,
          beneficiary := sampleParsed.beneficiary, gasPrice := sampleParsed.gasPrice,
          gasLimit := sampleParsed.gasLimit, nonce := sampleParsed.nonce,
          gateway := sampleParsed.gateway, staker := sampleParsed.staker,
          stakerProxy := sampleParsed.stakerProxy,
          blockNumber := some sampleParsed.blockNumber, messageHash := none }) :=
  ⟨rfl,
   persist_replaces_wholesale emptyStore sampleEvent sampleParsed
     (by decide) rfl rfl (Or.inl rfl)⟩

/-- Witness for C3 at a batch whose single event has a malformed amount. -/
theorem persist_malformed_aborts_batch_witness :
    parseEvent badEvent = none ∧
    ((∃ err, (persist sampleStore [badEvent]).1 = .error err) ∧
      (persist sampleStore [badEvent]).2.1 = [] ∧
      (persist sampleStore [badEvent]).2.2 = sampleStore.recs) :=
  ⟨by decide,
   persist_malformed_aborts_batch sampleStore [badEvent] badEvent
     (List.mem_singleton.mpr rfl) (by decide)⟩

/-- Witness for C4 at the empty store. -/
theorem resolve_messageHash_absent_witness :
    resolveEvent emptyStore sampleEvent = .ok (newRecord sampleParsed) ∧
    (newRecord sampleParsed).messageHash = none :=
  ⟨rfl,
   resolve_messageHash_absent emptyStore sampleEvent (newRecord sampleParsed) rfl⟩

/-- Witness for C5 at a one-event batch. -/
theorem persist_one_output_per_input_witness :
    (persist emptyStore [sampleEvent]).1 = .ok [newRecord sampleParsed] ∧
    ([newRecord sampleParsed].length = [sampleEvent].length ∧
      ∀ i (hi : i < [sampleEvent].length) (hm : i < [newRecord sampleParsed].length),
        resolveEvent emptyStore ([sampleEvent].get ⟨i, hi⟩) =
          .ok ([newRecord sampleParsed].get ⟨i, hm⟩)) :=
  ⟨rfl,
   persist_one_output_per_input emptyStore [sampleEvent] [newRecord sampleParsed] rfl⟩

/-- Witness for C6 at a stored record with blockNumber 50 and an event at
blockNumber 40. -/
theorem persist_idempotent_non_advancing_witness :
    lowParsed.blockNumber ≤ 50 ∧
    (persist sampleStore [lowEvent] =
        (.ok [newRecord lowParsed], [newRecord lowParsed],
          upsert sampleStore.recs (newRecord lowParsed)) ∧
      persist { sampleStore with recs := (persist sampleStore [lowEvent]).2.2 } [lowEvent] =
        persist sampleStore [lowEvent]) :=
  ⟨by decide,
   persist_idempotent_non_advancing sampleStore lowEvent lowParsed storedRecord 50
     (by decide) rfl rfl (by decide) rfl (by decide)⟩

/-- Witness for C7 at a one-event batch. -/
theorem persist_saves_each_resolved_record_once_witness :
    resolveAll emptyStore [sampleEvent] = .ok [newRecord sampleParsed] ∧
    ((persist emptyStore [sampleEvent]).2.1 = [newRecord sampleParsed] ∧
      ((∀ m ∈ [newRecord sampleParsed], emptyStore.saveFails m.stakeRequestHash = false) →
        (persist emptyStore [sampleEvent]).2.2 =
          [newRecord sampleParsed].foldl (fun acc m => upsert acc m) emptyStore.recs)) :=
  ⟨rfl,
   persist_saves_each_resolved_record_once emptyStore [sampleEvent]
     [newRecord sampleParsed] rfl⟩

/-- Witness for C8 at a store whose reads fail. -/
theorem persist_store_failures_propagate_witness :
    getFailStore.getFails sampleEvent.stakeRequestHash = true ∧
    ∃ err, (persist getFailStore [sampleEvent]).1 = .error err :=
  ⟨rfl,
   persist_store_failures_propagate getFailStore [sampleEvent]
     (Or.inl ⟨sampleEvent, List.mem_singleton.mpr rfl, by decide, rfl⟩)⟩

/-- Witness for C10 at a store whose only record has a present blockNumber. -/
theorem resolve_assertion_safe_witness :
    (storedRecord.blockNumber).isSome = true ∧
    resolveParsedChecked sampleStore.recs sampleParsed =
      some (resolveParsed sampleStore.recs sampleParsed) :=
  ⟨rfl,
   resolve_assertion_safe sampleStore.recs sampleParsed (by
     intro r hr
     have hv : lookupRec sampleStore.recs sampleParsed.stakeRequestHash =
         some storedRecord := by decide
     rw [hv] at hr
     cases hr
     rfl)⟩

end Facilitator
